import Mathlib

/-!
Shallow embedding of the CPU core of the `shrimpy` path tracer
(`src/tracer_struct.rs`, `src/graphics.rs`, `src/file_load.rs`).

Numeric model: the program's `f32` scalars are embedded as exact numbers —
`ℚ` for the BVH / scene component (all operations there are min/max,
comparison, addition and subtraction, so they stay rational and exact) and
`ℝ` for the camera component, whose normalisation involves a square root.
Decimal literals of the source (`1e-4`, `0.01`) are the exact rationals
`1/10000` and `1/100`.

Machine integers: `usize`/`u32` are embedded as `ℕ`.  The lossy
`usize as u32` cast on stored triangle ids is modelled explicitly as
`% 2^32`; node-index casts (`tree.len() as u32`) are modelled as the
identity, which is exact for every tree of fewer than `2^32` nodes.

The repository's `vec3.rs` module is referenced by every source file but is
not part of the sources; its operations are modelled from the spec (§2, §3:
"a 3-component floating-point vector with componentwise arithmetic,
dot/cross product, normalization, min/max", `normalized() = v / |v|`).
-/

namespace Shrimpy

/-- Modelled from the spec: the `vec3.rs` module's vector type — three
components, a value type ("Vector3: three IEEE-754 single-precision
components (x, y, z)"). -/
structure Vec3 (α : Type) where
  x : α
  y : α
  z : α
deriving DecidableEq, Repr

namespace Vec3

variable {α : Type} [LinearOrderedField α]

/-- Modelled from the spec: `Vec3::new`. -/
def new (a b c : α) : Vec3 α := ⟨a, b, c⟩

/-- Modelled from the spec: `Vec3::zero`. -/
def zero : Vec3 α := ⟨0, 0, 0⟩

/-- Modelled from the spec: `Vec3::all`. -/
def all (a : α) : Vec3 α := ⟨a, a, a⟩

/-- Modelled from the spec: componentwise addition. -/
instance : Add (Vec3 α) := ⟨fun u v => ⟨u.x + v.x, u.y + v.y, u.z + v.z⟩⟩

/-- Modelled from the spec: componentwise subtraction. -/
instance : Sub (Vec3 α) := ⟨fun u v => ⟨u.x - v.x, u.y - v.y, u.z - v.z⟩⟩

/-- Modelled from the spec: componentwise negation. -/
instance : Neg (Vec3 α) := ⟨fun v => ⟨-v.x, -v.y, -v.z⟩⟩

/-- Modelled from the spec: vector-times-scalar. -/
instance : HMul (Vec3 α) α (Vec3 α) := ⟨fun v s => ⟨v.x * s, v.y * s, v.z * s⟩⟩

/-- Modelled from the spec: vector-divided-by-scalar. -/
instance : HDiv (Vec3 α) α (Vec3 α) := ⟨fun v s => ⟨v.x / s, v.y / s, v.z / s⟩⟩

/-- Modelled from the spec: componentwise minimum (`Vec3::min`). -/
def vmin (u v : Vec3 α) : Vec3 α := ⟨min u.x v.x, min u.y v.y, min u.z v.z⟩

/-- Modelled from the spec: componentwise maximum (`Vec3::max`). -/
def vmax (u v : Vec3 α) : Vec3 α := ⟨max u.x v.x, max u.y v.y, max u.z v.z⟩

/-- Modelled from the spec: dot product. -/
def dot (u v : Vec3 α) : α := u.x * v.x + u.y * v.y + u.z * v.z

/-- Modelled from the spec: cross product. -/
def cross (u v : Vec3 α) : Vec3 α :=
  ⟨u.y * v.z - u.z * v.y, u.z * v.x - u.x * v.z, u.x * v.y - u.y * v.x⟩

/-- Indexed component access, `v[i]` of the source (0 ↦ x, 1 ↦ y, 2 ↦ z). -/
def get (v : Vec3 α) : ℕ → α
  | 0 => v.x
  | 1 => v.y
  | _ => v.z

/-- Modelled from the spec: Euclidean length (used by `normalized`). -/
noncomputable def length (v : Vec3 ℝ) : ℝ := Real.sqrt (dot v v)

/-- Modelled from the spec: `normalized() = v / length(v)`; "unit length
except when the input is the zero vector". -/
noncomputable def normalized (v : Vec3 ℝ) : Vec3 ℝ := v / length v

end Vec3

/-! ## Geometric primitives (`src/tracer_struct.rs`) -/

/-- `Triangle` (padding fields dropped; they carry no information). -/
structure Triangle where
  vertex_0 : Vec3 ℚ
  vertex_1 : Vec3 ℚ
  vertex_2 : Vec3 ℚ
  material_id : ℕ
deriving DecidableEq, Repr

namespace Triangle

/-- `Triangle::default`. -/
def default : Triangle := ⟨Vec3.zero, Vec3.zero, Vec3.zero, 0⟩

/-- `Triangle::bounding_box`: starts both bounds at `vertex_0`, then folds
`min`/`max` with `vertex_1` and `vertex_2`, axis by axis. -/
def bounding_box (t : Triangle) : Vec3 ℚ × Vec3 ℚ :=
  (⟨min (min t.vertex_0.x t.vertex_1.x) t.vertex_2.x,
    min (min t.vertex_0.y t.vertex_1.y) t.vertex_2.y,
    min (min t.vertex_0.z t.vertex_1.z) t.vertex_2.z⟩,
   ⟨max (max t.vertex_0.x t.vertex_1.x) t.vertex_2.x,
    max (max t.vertex_0.y t.vertex_1.y) t.vertex_2.y,
    max (max t.vertex_0.z t.vertex_1.z) t.vertex_2.z⟩)

/-- `Triangle::center`: arithmetic mean of the three vertices. -/
def center (t : Triangle) : Vec3 ℚ := (t.vertex_0 + t.vertex_1 + t.vertex_2) / (3 : ℚ)

end Triangle

/-! ## BVH builder (`src/tracer_struct.rs`) -/

/-- `const TRIANGLES_PER_LEAF: usize = 7`. -/
def TRIANGLES_PER_LEAF : ℕ := 7

/-- `BVHNode` (field order of the source; `triangle_ids` is the fixed
`[u32; TRIANGLES_PER_LEAF]` array, held as a length-7 list). -/
structure BVHNode where
  bbox_min : Vec3 ℚ
  child1 : ℕ
  bbox_max : Vec3 ℚ
  child2 : ℕ
  triangle_count : ℕ
  triangle_ids : List ℕ
deriving DecidableEq, Repr

namespace BVHNode

/-- `BVHNode::default`. -/
def default : BVHNode :=
  ⟨Vec3.zero, 0, Vec3.zero, 0, 0, List.replicate TRIANGLES_PER_LEAF 0⟩

end BVHNode

/-- The ids a node references: `triangle_ids[0 .. triangle_count]`.  Empty
for internal nodes (`triangle_count = 0`). -/
def nodeIds (n : BVHNode) : List ℕ := n.triangle_ids.take n.triangle_count

/-- The bbox-accumulation loop of `bvh_build`: fold the triangles'
bounding boxes with componentwise min/max.  The accumulator starts at
`(+∞, −∞)` in the source (`Vec3::all(INFINITY)`, `Vec3::all(NEG_INFINITY)`);
since `min(+∞, a) = a` and `max(−∞, a) = a`, the untouched accumulator is
represented by `none` and the first triangle's box replaces it. -/
def subsetBBox (tris : List Triangle) (idxs : List ℕ) : Option (Vec3 ℚ × Vec3 ℚ) :=
  idxs.foldl
    (fun acc i =>
      let b := (tris.getD i Triangle.default).bounding_box
      match acc with
      | none => some b
      | some (mn, mx) => some (mn.vmin b.1, mx.vmax b.2))
    none

/-- The degenerate-axis guard of `bvh_build`, one axis:
`if (max - min).abs() < 1e-4 { max += 0.01; min -= 0.01 }`. -/
def inflateAxis (mn mx : ℚ) : ℚ × ℚ :=
  if |mx - mn| < 1 / 10000 then (mn - 1 / 100, mx + 1 / 100) else (mn, mx)

/-- The degenerate-axis guard applied to all three axes. -/
def inflateBBox (b : Vec3 ℚ × Vec3 ℚ) : Vec3 ℚ × Vec3 ℚ :=
  (⟨(inflateAxis b.1.x b.2.x).1, (inflateAxis b.1.y b.2.y).1, (inflateAxis b.1.z b.2.z).1⟩,
   ⟨(inflateAxis b.1.x b.2.x).2, (inflateAxis b.1.y b.2.y).2, (inflateAxis b.1.z b.2.z).2⟩)

/-- The current node's (inflated) bounding box over its index subset.  For
the empty subset the source keeps the untouched `(+∞, −∞)` accumulator,
which has no rational representative; `(0, 0)` stands in for it — no claim
inspects the box of an empty-subset node. -/
def nodeBBox (tris : List Triangle) (idxs : List ℕ) : Vec3 ℚ × Vec3 ℚ :=
  match subsetBBox tris idxs with
  | none => (Vec3.zero, Vec3.zero)
  | some b => inflateBBox b

/-- The longest-axis choice of `bvh_build`:
`if dbox[0] > dbox[1] && dbox[0] > dbox[2] { 0 } else if dbox[1] > dbox[2] { 1 } else { 2 }`. -/
def longestAxis (dbox : Vec3 ℚ) : ℕ :=
  if dbox.get 0 > dbox.get 1 ∧ dbox.get 0 > dbox.get 2 then 0
  else if dbox.get 1 > dbox.get 2 then 1
  else 2

/-- The split axis chosen for a subset: longest axis of the node's
(inflated) bounding box, `dbox = bbox_max - bbox_min`. -/
def splitAxis (tris : List Triangle) (idxs : List ℕ) : ℕ :=
  longestAxis ((nodeBBox tris idxs).2 - (nodeBBox tris idxs).1)

/-- The sort key of `bvh_build`'s comparator: `tris[a].center()[axis]`. -/
def sortKey (tris : List Triangle) (ax : ℕ) (a : ℕ) : ℚ :=
  ((tris.getD a Triangle.default).center).get ax

/-- The in-place `tri_indices.sort_by(...)` of `bvh_build`: a stable sort
by the centroid coordinate along the split axis (Rust's `sort_by` is
stable; a stable sort by a total preorder has a unique result, so
`mergeSort` with the same key is behaviourally identical). -/
def sortedIdxs (tris : List Triangle) (idxs : List ℕ) : List ℕ :=
  idxs.mergeSort (fun a b =>
    decide (sortKey tris (splitAxis tris idxs) a ≤ sortKey tris (splitAxis tris idxs) b))

/-- `left_indices`: the first `len/2` sorted indices (`split_at_mut(mid)`). -/
def leftHalf (tris : List Triangle) (idxs : List ℕ) : List ℕ :=
  (sortedIdxs tris idxs).take (idxs.length / 2)

/-- `right_indices`: the sorted indices from `len/2` on. -/
def rightHalf (tris : List Triangle) (idxs : List ℕ) : List ℕ :=
  (sortedIdxs tris idxs).drop (idxs.length / 2)

/-- The leaf node emitted by `bvh_build` when `len <= TRIANGLES_PER_LEAF`:
default node with the subset's (inflated) box, `triangle_count = len`, and
the subset's ids written into the zero-filled id array (`as u32` cast is
`% 2^32`; the branch guard bounds `len ≤ 7`, so `len as u32` is exact). -/
def mkLeafNode (tris : List Triangle) (idxs : List ℕ) : BVHNode :=
  { BVHNode.default with
    bbox_min := (nodeBBox tris idxs).1
    bbox_max := (nodeBBox tris idxs).2
    triangle_count := idxs.length
    triangle_ids :=
      idxs.map (· % 2 ^ 32) ++ List.replicate (TRIANGLES_PER_LEAF - idxs.length) 0 }

/-- The write-back into the reserved parent slot of `bvh_build`: default
node (so `triangle_count = 0`, `triangle_ids` zeroed) with the subset's
(inflated) box and the two child indices returned by the recursion. -/
def mkInternalNode (tris : List Triangle) (idxs : List ℕ) (c1 c2 : ℕ) : BVHNode :=
  { BVHNode.default with
    bbox_min := (nodeBBox tris idxs).1
    bbox_max := (nodeBBox tris idxs).2
    child1 := c1
    child2 := c2 }

/-- `BVHNode::bvh_build`.  Functional rendition of the recursion: the
output vector `tree` is threaded through, the return value is the final
vector paired with the reserved `node_index = tree.len()`.  The in-place
sort of `tri_indices` is reflected by recursing on the two halves of the
sorted list; nothing observes the slice's final contents.
`max_triangles_per_leaf` is passed along exactly as in the source (it is
never read — the leaf guard uses the constant `TRIANGLES_PER_LEAF`). -/
def bvhBuild (tris : List Triangle) (idxs : List ℕ) (tree : List BVHNode)
    (max_triangles_per_leaf : ℕ) : List BVHNode × ℕ :=
  if idxs.length ≤ TRIANGLES_PER_LEAF then
    (tree ++ [mkLeafNode tris idxs], tree.length)
  else
    -- push dummy parent node before creating children to preserve node_index
    let t1 := tree ++ [BVHNode.default]
    let r1 := bvhBuild tris (leftHalf tris idxs) t1 max_triangles_per_leaf
    let r2 := bvhBuild tris (rightHalf tris idxs) r1.1 max_triangles_per_leaf
    -- update parent node
    (r2.1.set tree.length (mkInternalNode tris idxs r1.2 r2.2), tree.length)
termination_by idxs.length
decreasing_by
  all_goals
    have h7 : TRIANGLES_PER_LEAF = 7 := rfl
    simp only [leftHalf, rightHalf, sortedIdxs, List.length_take, List.length_drop,
      List.length_mergeSort]
    omega

/-- The node sequence a call of `bvh_build` appends, described by the base
index (= length of the output vector at call time) alone: a leaf, or the
parent followed by the left then the right subtree's nodes. -/
def buildNodes (tris : List Triangle) (idxs : List ℕ) (base : ℕ) : List BVHNode :=
  if idxs.length ≤ TRIANGLES_PER_LEAF then [mkLeafNode tris idxs]
  else
    let nl := buildNodes tris (leftHalf tris idxs) (base + 1)
    let nr := buildNodes tris (rightHalf tris idxs) (base + 1 + nl.length)
    mkInternalNode tris idxs (base + 1) (base + 1 + nl.length) :: (nl ++ nr)
termination_by idxs.length
decreasing_by
  all_goals
    have h7 : TRIANGLES_PER_LEAF = 7 := rfl
    simp only [leftHalf, rightHalf, sortedIdxs, List.length_take, List.length_drop,
      List.length_mergeSort]
    omega

/-! ## Reachability in the flat node array

The consuming shader walks the tree from the root: a node with
`triangle_count = 0` is internal and its `child1`/`child2` are followed.
`Reach t r j` says node slot `j` is reachable from slot `r` in array `t`. -/

inductive Reach (t : List BVHNode) (r : ℕ) : ℕ → Prop where
  | refl : Reach t r r
  | left {j : ℕ} : Reach t r j → j < t.length →
      (t.getD j BVHNode.default).triangle_count = 0 →
      Reach t r ((t.getD j BVHNode.default).child1)
  | right {j : ℕ} : Reach t r j → j < t.length →
      (t.getD j BVHNode.default).triangle_count = 0 →
      Reach t r ((t.getD j BVHNode.default).child2)

/-! ## Scene aggregation (`src/tracer_struct.rs`, `src/graphics.rs`) -/

/-- `Material` (padding dropped). -/
structure Material where
  color : Vec3 ℚ
  roughness_or_ior : ℚ
  emission_strength : ℚ
  volume_density : ℚ
deriving DecidableEq, Repr

/-- `Material::default`. -/
def Material.default : Material := ⟨Vec3.all 1, 1, 0, 1⟩

/-- `Sphere` (padding dropped). -/
structure Sphere where
  center : Vec3 ℚ
  radius : ℚ
  material_id : ℕ
deriving DecidableEq, Repr

/-- `Sphere::default`. -/
def Sphere.default : Sphere := ⟨Vec3.zero, 1, 0⟩

/-- `Scene`: the fixed-capacity arrays (`[Material; 64]`, `[Sphere; 64]`,
`[Triangle; 256]`, `[BVHNode; 96]`) are held as lists whose lengths the
constructor fixes. -/
structure Scene where
  materials : List Material
  spheres : List Sphere
  triangles : List Triangle
  sphere_count : ℕ
  triangle_count : ℕ
  bvh : List BVHNode
deriving DecidableEq, Repr

/-- `Scene::new`. -/
def Scene.new : Scene :=
  ⟨List.replicate 64 Material.default,
   List.replicate 64 Sphere.default,
   List.replicate 256 Triangle.default,
   0, 0,
   List.replicate 96 BVHNode.default⟩

/-- The write-back loop of `Gfx::scene_build`:
`for (i, node) in tmp_bvh.iter().take(96).enumerate() { self.scene.bvh[i] = node.clone(); }`
(the `take 96` is applied by the caller). -/
def writeNodes (dst src : List BVHNode) : List BVHNode :=
  src.enum.foldl (fun d p => d.set p.1 p.2) dst

/-- `Gfx::scene_build`: collect the index range `[0, triangle_count)`,
run the BVH builder into a fresh vector with the literal argument `8`, and
copy the first at-most-96 produced nodes into the scene's `bvh` array. -/
def sceneBuild (s : Scene) : Scene :=
  let tmp_bvh := (bvhBuild s.triangles (List.range s.triangle_count) [] 8).1
  { s with bvh := writeNodes s.bvh (tmp_bvh.take 96) }

/-! ## Camera (`src/tracer_struct.rs`), over `ℝ` -/

/-- `Camera` (padding dropped). -/
structure Camera where
  position : Vec3 ℝ
  direction : Vec3 ℝ
  fov : ℝ
  width : ℝ
  focus_distance : ℝ
  apeture : ℝ
  diverge_strength : ℝ
  max_ray_bounces : ℕ

/-- The `world_up` constant of `Camera::get_right_direction`. -/
def world_up : Vec3 ℝ := ⟨0, 1, 0⟩

namespace Camera

/-- `Camera::new` (`fov = 75 * 0.01745329251` embedded exactly). -/
noncomputable def new : Camera :=
  ⟨Vec3.zero, ⟨0, 0, -1⟩, 75 * (1745329251 / 100000000000), 1, 2, 2 / 100, 4 / 1000, 50⟩

/-- `Camera::get_right_direction`: `-direction.cross(world_up).normalized()`. -/
noncomputable def get_right_direction (c : Camera) : Vec3 ℝ :=
  -((c.direction.cross world_up).normalized)

/-- `Camera::get_up_direction`: `direction.cross(right).normalized()`. -/
noncomputable def get_up_direction (c : Camera) : Vec3 ℝ :=
  (c.direction.cross c.get_right_direction).normalized

/-- `Camera::pan`: add `right * ammount` into `direction`, renormalize. -/
noncomputable def pan (c : Camera) (ammount : ℝ) : Camera :=
  { c with direction := (c.direction + c.get_right_direction * ammount).normalized }

/-- `Camera::tilt`: add `up * ammount` into `direction`, renormalize. -/
noncomputable def tilt (c : Camera) (ammount : ℝ) : Camera :=
  { c with direction := (c.direction + c.get_up_direction * ammount).normalized }

end Camera

/-! ## Mesh loader (`src/file_load.rs`)

`load_mesh_from` is modelled over the file's lines (the `BufReader` loop;
lines that fail to read are `continue`d by the source, so the input is the
list of successfully read lines; a file that fails to open is `none`).
Strings are embedded as `List Char` so the string primitives
(`trim`, `starts_with`, `split_whitespace`, `split('/')`) are structural
and evaluable.  A Rust panic is modelled as the result `none`; a normal
return is `some`.  The parser for `f32` literals (`f32::from_str`,
external standard library) is a parameter; no claim depends on its
values.  `usize` parsing (`str::parse::<usize>`) is modelled as decimal
digit parsing. -/

/-- A Rust `&str`, as its characters. -/
abbrev Str := List Char

/-- Rust's `str::trim`: strip leading and trailing whitespace. -/
def strTrim (l : Str) : Str :=
  ((l.dropWhile Char.isWhitespace).reverse.dropWhile Char.isWhitespace).reverse

/-- Rust's `str::starts_with`. -/
def strStartsWith (l p : Str) : Bool := p.isPrefixOf l

/-- `split_whitespace`, fuel-based so it reduces in the kernel: split at
whitespace runs, dropping empty tokens. -/
def splitWsAux : ℕ → Str → List Str
  | 0, _ => []
  | _ + 1, [] => []
  | n + 1, c :: cs =>
    if c.isWhitespace then splitWsAux n cs
    else
      (c :: cs.takeWhile (fun d => ¬ d.isWhitespace)) ::
        splitWsAux n (cs.dropWhile (fun d => ¬ d.isWhitespace))

/-- Rust's `str::split_whitespace`. -/
def splitWs (l : Str) : List Str := splitWsAux l.length l

/-- `str::split(sep)`, fuel-based: split at every occurrence of `sep`,
keeping empty tokens (as Rust's `split` does). -/
def splitCharAux (sep : Char) : ℕ → Str → Str → List Str
  | 0, acc, _ => [acc.reverse]
  | _ + 1, acc, [] => [acc.reverse]
  | n + 1, acc, c :: cs =>
    if c = sep then acc.reverse :: splitCharAux sep n [] cs
    else splitCharAux sep n (c :: acc) cs

/-- Rust's `str::split('/')` and friends. -/
def splitChar (sep : Char) (l : Str) : List Str := splitCharAux sep l.length [] l

/-- Decimal parse of `str::parse::<usize>()`: all-digit, non-empty.
(Rust also accepts a leading `+` and errors on overflow; neither affects
any claim: both still panic through `unwrap`/indexing on the inputs
considered.) -/
def parseUsizeAux : Str → ℕ → Option ℕ
  | [], acc => some acc
  | c :: cs, acc =>
    if c.isDigit then parseUsizeAux cs (acc * 10 + (c.toNat - 48)) else none

/-- Rust's `str::parse::<usize>()`. -/
def parseUsize : Str → Option ℕ
  | [] => none
  | l => parseUsizeAux l 0

/-- The loader's running state: `has_texture`, `verts`, `texs`, `tris`. -/
structure LoadState where
  has_texture : Bool
  verts : List (Vec3 ℚ)
  texs : List (Vec3 ℚ)
  tris : List Triangle
deriving Repr, DecidableEq

/-- `verts[tok.parse::<usize>().unwrap() - 1]`: `unwrap` panics on a
non-numeric token; a zero index underflows `usize` subtraction (resp.
wraps to an out-of-range index) and panics; an out-of-range index panics
on the slice access.  All three are `none`. -/
def vertLookup (verts : List (Vec3 ℚ)) (tok : Str) : Option (Vec3 ℚ) :=
  match parseUsize tok with
  | none => none
  | some k => if k = 0 then none else verts.get? (k - 1)

/-- One iteration of the line loop of `load_mesh_from`. -/
def processLine (parseF32 : Str → Option ℚ) (material_id : ℕ)
    (st : LoadState) (line : Str) : Option LoadState :=
  let pf := fun (s : Str) => (parseF32 s).getD 0   -- `from_str(..).unwrap_or(0.0)`
  let trimmed := strTrim line
  if strStartsWith trimmed ("vt".toList) then
    let parts := splitWs trimmed
    some { st with
      has_texture := true
      texs :=
        if 3 ≤ parts.length then
          st.texs ++ [⟨1 - pf (parts.getD 1 []), 1 - pf (parts.getD 2 []), 0⟩]
        else st.texs }
  else if strStartsWith trimmed ("v".toList) then
    let parts := splitWs trimmed
    some { st with
      verts :=
        if 4 ≤ parts.length then
          st.verts ++ [⟨pf (parts.getD 1 []), pf (parts.getD 2 []), pf (parts.getD 3 [])⟩]
        else st.verts }
  else if strStartsWith trimmed ("f".toList) then
    if st.has_texture then
      let tokens := ((splitWs trimmed).drop 1).flatMap (splitChar '/')
      if 6 ≤ tokens.length then
        match vertLookup st.verts (tokens.getD 0 []),
              vertLookup st.verts (tokens.getD 2 []),
              vertLookup st.verts (tokens.getD 4 []) with
        | some v0, some v1, some v2 =>
            some { st with tris := st.tris ++ [⟨v0, v1, v2, material_id⟩] }
        | _, _, _ => none
      else some st
    else
      let parts := splitWs trimmed
      if 4 ≤ parts.length then
        match vertLookup st.verts (parts.getD 1 []),
              vertLookup st.verts (parts.getD 2 []),
              vertLookup st.verts (parts.getD 3 []) with
        | some v0, some v1, some v2 =>
            some { st with tris := st.tris ++ [⟨v0, v1, v2, material_id⟩] }
        | _, _, _ => none
      else some st
  else some st

/-- `load_mesh_from`.  `file = none` is a file that failed to open: the
source prints a diagnostic and returns the empty list. -/
def load_mesh_from (parseF32 : Str → Option ℚ) (file : Option (List Str))
    (material_id : ℕ) : Option (List Triangle) :=
  match file with
  | none => some []
  | some lines =>
      (lines.foldlM (processLine parseF32 material_id) ⟨false, [], [], []⟩).map
        LoadState.tris


/-! ## Concrete inputs used by witnesses and counterexamples -/

/-- The single triangle of the spec's test scenario:
`{(0,0,0),(1,0,0),(0,1,0)}`. -/
def exTriangle : Triangle := ⟨⟨0, 0, 0⟩, ⟨1, 0, 0⟩, ⟨0, 1, 0⟩, 0⟩

/-- A degenerate (point) triangle at a given position. -/
def pointTri (v : Vec3 ℚ) : Triangle := ⟨v, v, v, 0⟩

/-- Eight point triangles whose union box has equal x- and y-extent (7)
and zero z-extent, with x-centroids increasing and y-centroids
decreasing. -/
def exTris8 : List Triangle :=
  (List.range 8).map (fun k => pointTri ⟨(k : ℚ), (7 : ℚ) - (k : ℚ), 0⟩)

/-- Modelled from the spec: "choose the split axis = the axis of greatest
bounding-box extent (ties broken by axis order x < y < z, i.e. x
preferred, then y, then z)". -/
def specSplitAxis (dbox : Vec3 ℚ) : ℕ :=
  if dbox.get 0 ≥ dbox.get 1 ∧ dbox.get 0 ≥ dbox.get 2 then 0
  else if dbox.get 1 ≥ dbox.get 2 then 1
  else 2

/-- A marker node as an earlier, larger build could have produced it (a
leaf over five triangles), distinguishable from every node a 1-triangle
build produces and from the reset (default) node. -/
def staleNode : BVHNode := mkLeafNode (List.replicate 256 Triangle.default) [0, 1, 2, 3, 4]

/-- A scene as an earlier, larger build could have left it: one live
triangle, but a left-over node in `bvh` slot 1. -/
def exSceneStale : Scene :=
  { Scene.new with
    triangle_count := 1
    bvh := (List.replicate 96 BVHNode.default).set 1 staleNode }


/-- A concrete camera for the camera-invariant witness: position at the
origin, direction `(0,0,-1)` (the direction `Camera::new` uses). -/
noncomputable def exCamera : Camera := ⟨Vec3.zero, ⟨0, 0, -1⟩, 0, 0, 0, 0, 0, 0⟩

/-! ## Theorems: structural facts about the builder -/

theorem length_leftHalf (tris : List Triangle) (idxs : List ℕ) :
    (leftHalf tris idxs).length = min (idxs.length / 2) idxs.length := by
  simp [leftHalf, sortedIdxs, List.length_mergeSort]

theorem length_rightHalf (tris : List Triangle) (idxs : List ℕ) :
    (rightHalf tris idxs).length = idxs.length - idxs.length / 2 := by
  simp [rightHalf, sortedIdxs, List.length_mergeSort]

theorem set_append_length {α : Type} (l r : List α) (a b : α) :
    (l ++ a :: r).set l.length b = l ++ b :: r := by
  induction l with
  | nil => rfl
  | cons c cs ih => simp [List.set, ih]

/-- `bvh_build` appends exactly `buildNodes` at the end of the incoming
vector and returns the reserved index; the appended nodes depend on the
incoming vector only through its length. -/
theorem bvhBuild_eq (tris : List Triangle) (m : ℕ) :
    ∀ (n : ℕ) (idxs : List ℕ), idxs.length ≤ n → ∀ (tree : List BVHNode),
      bvhBuild tris idxs tree m = (tree ++ buildNodes tris idxs tree.length, tree.length) := by
  intro n
  induction n with
  | zero =>
    intro idxs h tree
    have h0 : idxs.length ≤ TRIANGLES_PER_LEAF := by
      have : TRIANGLES_PER_LEAF = 7 := rfl
      omega
    rw [bvhBuild, buildNodes]
    simp [h0]
  | succ n ih =>
    intro idxs h tree
    by_cases hle : idxs.length ≤ TRIANGLES_PER_LEAF
    · rw [bvhBuild, buildNodes]; simp [hle]
    · have h7 : TRIANGLES_PER_LEAF = 7 := rfl
      have hlen : 7 < idxs.length := by omega
      have hleft : (leftHalf tris idxs).length ≤ n := by
        rw [length_leftHalf]; omega
      have hright : (rightHalf tris idxs).length ≤ n := by
        rw [length_rightHalf]; omega
      rw [bvhBuild, buildNodes]
      simp only [hle, if_false]
      rw [ih _ hleft, ih _ hright]
      simp only [List.length_append, List.length_cons, List.length_nil, Nat.zero_add]
      rw [List.append_assoc, List.append_assoc]
      have hset :
          (tree ++ ([BVHNode.default] ++
              (buildNodes tris (leftHalf tris idxs) (tree.length + 1) ++
               buildNodes tris (rightHalf tris idxs)
                 (tree.length + 1 +
                   (buildNodes tris (leftHalf tris idxs) (tree.length + 1)).length)))).set
            tree.length
            (mkInternalNode tris idxs (tree.length + 1)
              (tree.length + 1 +
                (buildNodes tris (leftHalf tris idxs) (tree.length + 1)).length)) =
          tree ++
            (mkInternalNode tris idxs (tree.length + 1)
              (tree.length + 1 +
                (buildNodes tris (leftHalf tris idxs) (tree.length + 1)).length) ::
             (buildNodes tris (leftHalf tris idxs) (tree.length + 1) ++
              buildNodes tris (rightHalf tris idxs)
                (tree.length + 1 +
                  (buildNodes tris (leftHalf tris idxs) (tree.length + 1)).length))) := by
        exact set_append_length tree _ _ _
      simp only [List.singleton_append] at hset ⊢
      rw [hset]

theorem bvhBuild_eq' (tris : List Triangle) (idxs : List ℕ) (tree : List BVHNode) (m : ℕ) :
    bvhBuild tris idxs tree m = (tree ++ buildNodes tris idxs tree.length, tree.length) :=
  bvhBuild_eq tris m idxs.length idxs le_rfl tree

theorem buildNodes_length_pos (tris : List Triangle) (idxs : List ℕ) (base : ℕ) :
    0 < (buildNodes tris idxs base).length := by
  rw [buildNodes]; split <;> simp

theorem sortedIdxs_perm (tris : List Triangle) (idxs : List ℕ) :
    (sortedIdxs tris idxs).Perm idxs :=
  List.mergeSort_perm _ _

theorem leftHalf_append_rightHalf (tris : List Triangle) (idxs : List ℕ) :
    leftHalf tris idxs ++ rightHalf tris idxs = sortedIdxs tris idxs :=
  List.take_append_drop _ _

theorem nodeIds_mkLeafNode (tris : List Triangle) (idxs : List ℕ) :
    nodeIds (mkLeafNode tris idxs) = idxs.map (· % 2 ^ 32) := by
  show List.take idxs.length
      (idxs.map (· % 2 ^ 32) ++ List.replicate (TRIANGLES_PER_LEAF - idxs.length) 0) =
    idxs.map (· % 2 ^ 32)
  rw [← List.length_map idxs (· % 2 ^ 32), List.take_left]

theorem nodeIds_mkInternalNode (tris : List Triangle) (idxs : List ℕ) (c1 c2 : ℕ) :
    nodeIds (mkInternalNode tris idxs c1 c2) = [] := rfl

/-- The multiset of triangle ids stored across a call's nodes is exactly the
input subset (pushed through the `usize as u32` cast). -/
theorem countIds_buildNodes (tris : List Triangle) (idxs : List ℕ) (base : ℕ) :
    ∀ i : ℕ,
      List.count i (List.flatten ((buildNodes tris idxs base).map nodeIds)) =
        List.count i (idxs.map (· % 2 ^ 32)) := by
  induction idxs, base using buildNodes.induct tris with
  | case1 idxs base hle =>
    intro i
    rw [buildNodes]
    simp [hle, nodeIds_mkLeafNode]
  | case2 idxs base hle nl ihl ihr =>
    intro i
    rw [buildNodes]
    unfold nl at ihr
    simp only [hle, if_false, List.map_cons, List.map_append, List.flatten_cons,
      List.flatten_append, nodeIds_mkInternalNode, List.nil_append, List.count_append,
      ihl, ihr]
    rw [← List.count_append, ← List.map_append, leftHalf_append_rightHalf]
    exact ((sortedIdxs_perm tris idxs).map _).count_eq i

/-- Every node a call appends has `triangle_count` at most 7 (internal
nodes store 0, leaves their subset's length, bounded by the leaf guard). -/
theorem triangle_count_buildNodes (tris : List Triangle) (idxs : List ℕ) (base : ℕ) :
    ∀ nd ∈ buildNodes tris idxs base, nd.triangle_count ≤ TRIANGLES_PER_LEAF := by
  induction idxs, base using buildNodes.induct tris with
  | case1 idxs base hle =>
    intro nd hnd
    rw [buildNodes] at hnd
    simp [hle] at hnd
    subst hnd
    exact hle
  | case2 idxs base hle nl ihl ihr =>
    intro nd hnd
    rw [buildNodes] at hnd
    unfold nl at ihr
    simp only [hle, if_false, List.mem_cons, List.mem_append] at hnd
    rcases hnd with h | h | h
    · subst h
      show (0 : ℕ) ≤ TRIANGLES_PER_LEAF
      exact Nat.zero_le _
    · exact ihl nd h
    · exact ihr nd h

theorem Reach.trans {t : List BVHNode} {a b c : ℕ} (hab : Reach t a b)
    (hbc : Reach t b c) : Reach t a c := by
  induction hbc with
  | refl => exact hab
  | left _ hlt hcnt ih => exact Reach.left ih hlt hcnt
  | right _ hlt hcnt ih => exact Reach.right ih hlt hcnt

/-- From a leaf (`triangle_count ≠ 0`) nothing but the node itself is
reachable. -/
theorem reach_of_leaf {t : List BVHNode} {a : ℕ}
    (hcnt : (t.getD a BVHNode.default).triangle_count ≠ 0) :
    ∀ j, Reach t a j ↔ j = a := by
  intro j
  constructor
  · intro h
    induction h with
    | refl => rfl
    | left _ hlt hcnt2 ih => subst ih; exact absurd hcnt2 hcnt
    | right _ hlt hcnt2 ih => subst ih; exact absurd hcnt2 hcnt
  · intro h; subst h; exact Reach.refl

/-- From an internal node, reachability decomposes into the node itself
and the reachable sets of its two children. -/
theorem reach_of_internal {t : List BVHNode} {a : ℕ} (ha : a < t.length)
    (hcnt : (t.getD a BVHNode.default).triangle_count = 0) :
    ∀ j, Reach t a j ↔
      j = a ∨ Reach t ((t.getD a BVHNode.default).child1) j ∨
        Reach t ((t.getD a BVHNode.default).child2) j := by
  intro j
  constructor
  · intro h
    induction h with
    | refl => exact Or.inl rfl
    | left hr hlt hcnt2 ih =>
      rcases ih with h1 | h1 | h1
      · subst h1; exact Or.inr (Or.inl Reach.refl)
      · exact Or.inr (Or.inl (Reach.left h1 hlt hcnt2))
      · exact Or.inr (Or.inr (Reach.left h1 hlt hcnt2))
    | right hr hlt hcnt2 ih =>
      rcases ih with h1 | h1 | h1
      · subst h1; exact Or.inr (Or.inr Reach.refl)
      · exact Or.inr (Or.inl (Reach.right h1 hlt hcnt2))
      · exact Or.inr (Or.inr (Reach.right h1 hlt hcnt2))
  · intro h
    rcases h with h1 | h1 | h1
    · subst h1; exact Reach.refl
    · exact Reach.trans (Reach.left Reach.refl ha hcnt) h1
    · exact Reach.trans (Reach.right Reach.refl ha hcnt) h1

/-- The slots reachable from the root of a (sub)build are exactly the
slots the build occupies: `[base, base + |buildNodes|)`.  The build may be
embedded in any surrounding array `pre ++ · ++ post` with `|pre| = base`.
Requires a non-empty subset (an empty subset's lone leaf stores
`triangle_count = 0` and would read as an internal node). -/
theorem reach_buildNodes (tris : List Triangle) (idxs : List ℕ) (base : ℕ) :
    idxs ≠ [] →
    ∀ (pre post : List BVHNode), pre.length = base →
    ∀ j, Reach (pre ++ buildNodes tris idxs base ++ post) base j ↔
      (base ≤ j ∧ j < base + (buildNodes tris idxs base).length) := by
  induction idxs, base using buildNodes.induct tris with
  | case1 idxs base hle =>
    intro hne pre post hpre j
    rw [buildNodes]
    simp only [hle, if_true]
    have hget : ((pre ++ [mkLeafNode tris idxs] ++ post).getD base BVHNode.default) =
        mkLeafNode tris idxs := by
      rw [List.append_assoc, List.getD_append_right pre _ _ base (by omega)]
      simp [hpre]
    have hcnt : ((pre ++ [mkLeafNode tris idxs] ++ post).getD base BVHNode.default).triangle_count ≠ 0 := by
      rw [hget]
      show idxs.length ≠ 0
      simpa [List.length_eq_zero] using hne
    rw [reach_of_leaf hcnt j]
    simp only [List.length_cons, List.length_nil]
    omega
  | case2 idxs base hle nl ihl ihr =>
    intro hne pre post hpre j
    rw [buildNodes]
    simp only [hle, if_false]
    unfold nl at ihr
    have h7 : TRIANGLES_PER_LEAF = 7 := rfl
    have hlen : 7 < idxs.length := by omega
    set NL := buildNodes tris (leftHalf tris idxs) (base + 1)
    set NR := buildNodes tris (rightHalf tris idxs) (base + 1 + NL.length)
    set P := mkInternalNode tris idxs (base + 1) (base + 1 + NL.length)
    have hgetP : ((pre ++ (P :: (NL ++ NR)) ++ post).getD base BVHNode.default) = P := by
      rw [List.append_assoc, List.getD_append_right pre _ _ base (by omega)]
      simp [hpre]
    have hbase_lt : base < (pre ++ (P :: (NL ++ NR)) ++ post).length := by
      simp only [List.length_append, List.length_cons, hpre]
      omega
    have hcntP : ((pre ++ (P :: (NL ++ NR)) ++ post).getD base BVHNode.default).triangle_count = 0 := by
      rw [hgetP]; rfl
    have hchild1 : ((pre ++ (P :: (NL ++ NR)) ++ post).getD base BVHNode.default).child1 = base + 1 := by
      rw [hgetP]; rfl
    have hchild2 : ((pre ++ (P :: (NL ++ NR)) ++ post).getD base BVHNode.default).child2 =
        base + 1 + NL.length := by
      rw [hgetP]; rfl
    rw [reach_of_internal hbase_lt hcntP j, hchild1, hchild2]
    have hlne : leftHalf tris idxs ≠ [] := by
      apply List.ne_nil_of_length_pos
      rw [length_leftHalf]; omega
    have hrne : rightHalf tris idxs ≠ [] := by
      apply List.ne_nil_of_length_pos
      rw [length_rightHalf]; omega
    have hL := ihl hlne (pre ++ [P]) (NR ++ post)
      (by simp only [List.length_append, List.length_cons, List.length_nil, hpre]; try omega) j
    have hR := ihr hrne ((pre ++ [P]) ++ NL) post
      (by simp only [List.length_append, List.length_cons, List.length_nil, hpre]; try omega) j
    simp only [List.append_assoc, List.singleton_append, List.cons_append,
      List.nil_append] at hL hR ⊢
    rw [hL, hR]
    simp only [List.length_cons, List.length_append]
    omega

/-! ## Generic helper lemmas -/

theorem getD_le_sum (l : List ℕ) : ∀ k, l.getD k 0 ≤ l.sum := by
  induction l with
  | nil => intro k; simp [List.getD]
  | cons a tl ih =>
    intro k
    cases k with
    | zero => simp
    | succ n =>
      rw [List.getD_cons_succ, List.sum_cons]
      have := ih n
      omega

theorem sum_eq_one_unique_pos (l : List ℕ) (h : l.sum = 1) :
    ∃! k, k < l.length ∧ 0 < l.getD k 0 := by
  induction l with
  | nil => simp at h
  | cons a tl ih =>
    rw [List.sum_cons] at h
    rcases Nat.eq_zero_or_pos a with ha | ha
    · have htl : tl.sum = 1 := by omega
      obtain ⟨k, ⟨hk, hpos⟩, huniq⟩ := ih htl
      refine ⟨k + 1, ⟨by simp; omega, by simpa [List.getD_cons_succ] using hpos⟩, ?_⟩
      rintro m ⟨hm, hmpos⟩
      cases m with
      | zero => rw [List.getD_cons_zero] at hmpos; omega
      | succ n =>
        have hn := huniq n ⟨by simpa using hm, by simpa [List.getD_cons_succ] using hmpos⟩
        omega
    · have htl : tl.sum = 0 := by omega
      have hall : ∀ x ∈ tl, x = 0 := List.sum_eq_zero_iff.mp htl
      refine ⟨0, ⟨by simp, by simpa [List.getD_cons_zero] using ha⟩, ?_⟩
      rintro m ⟨hm, hmpos⟩
      cases m with
      | zero => rfl
      | succ n =>
        exfalso
        have hn : n < tl.length := by simpa using hm
        rw [List.getD_cons_succ, List.getD_eq_getElem tl 0 hn] at hmpos
        have := hall _ (List.getElem_mem hn)
        omega

theorem foldl_set_enumFrom (src : List BVHNode) :
    ∀ (pre rest : List BVHNode), src.length ≤ rest.length →
      (List.enumFrom pre.length src).foldl (fun d p => d.set p.1 p.2) (pre ++ rest) =
        pre ++ src ++ rest.drop src.length := by
  induction src with
  | nil =>
    intro pre rest h
    simp
  | cons a tl ih =>
    intro pre rest h
    cases rest with
    | nil => simp at h
    | cons b rest2 =>
      rw [List.enumFrom_cons, List.foldl_cons]
      have hset : (pre ++ b :: rest2).set pre.length a = pre ++ a :: rest2 :=
        set_append_length pre rest2 b a
      simp only [hset]
      have hlen : (pre ++ [a]).length = pre.length + 1 := by simp
      have happ : pre ++ a :: rest2 = (pre ++ [a]) ++ rest2 := by simp
      rw [happ, ← hlen]
      rw [ih (pre ++ [a]) rest2 (by simpa using h)]
      simp

/-- The write-back loop of `scene_build`, as take/append/drop: the first
`|src|` slots are replaced, the rest of `dst` is untouched. -/
theorem writeNodes_eq (dst src : List BVHNode) (h : src.length ≤ dst.length) :
    writeNodes dst src = src ++ dst.drop src.length := by
  have := foldl_set_enumFrom src [] dst h
  simpa [writeNodes, List.enum_eq_enumFrom] using this

/-! ## Real-vector facts for the camera invariant -/

namespace Vec3

variable {α : Type} [LinearOrderedField α]

@[simp] theorem x_mk {β : Type} (a b c : β) : (Vec3.mk a b c).x = a := rfl

@[simp] theorem y_mk {β : Type} (a b c : β) : (Vec3.mk a b c).y = b := rfl

@[simp] theorem z_mk {β : Type} (a b c : β) : (Vec3.mk a b c).z = c := rfl

@[simp] theorem x_add (u v : Vec3 α) : (u + v).x = u.x + v.x := rfl

@[simp] theorem y_add (u v : Vec3 α) : (u + v).y = u.y + v.y := rfl

@[simp] theorem z_add (u v : Vec3 α) : (u + v).z = u.z + v.z := rfl

@[simp] theorem x_sub (u v : Vec3 α) : (u - v).x = u.x - v.x := rfl

@[simp] theorem y_sub (u v : Vec3 α) : (u - v).y = u.y - v.y := rfl

@[simp] theorem z_sub (u v : Vec3 α) : (u - v).z = u.z - v.z := rfl

@[simp] theorem x_neg (v : Vec3 α) : (-v).x = -v.x := rfl

@[simp] theorem y_neg (v : Vec3 α) : (-v).y = -v.y := rfl

@[simp] theorem z_neg (v : Vec3 α) : (-v).z = -v.z := rfl

@[simp] theorem x_hmul (v : Vec3 α) (s : α) : (v * s).x = v.x * s := rfl

@[simp] theorem y_hmul (v : Vec3 α) (s : α) : (v * s).y = v.y * s := rfl

@[simp] theorem z_hmul (v : Vec3 α) (s : α) : (v * s).z = v.z * s := rfl

@[simp] theorem x_hdiv (v : Vec3 α) (s : α) : (v / s).x = v.x / s := rfl

@[simp] theorem y_hdiv (v : Vec3 α) (s : α) : (v / s).y = v.y / s := rfl

@[simp] theorem z_hdiv (v : Vec3 α) (s : α) : (v / s).z = v.z / s := rfl

@[simp] theorem x_cross (u v : Vec3 α) : (cross u v).x = u.y * v.z - u.z * v.y := rfl

@[simp] theorem y_cross (u v : Vec3 α) : (cross u v).y = u.z * v.x - u.x * v.z := rfl

@[simp] theorem z_cross (u v : Vec3 α) : (cross u v).z = u.x * v.y - u.y * v.x := rfl

@[simp] theorem x_zero : (zero : Vec3 α).x = 0 := rfl

@[simp] theorem y_zero : (zero : Vec3 α).y = 0 := rfl

@[simp] theorem z_zero : (zero : Vec3 α).z = 0 := rfl

theorem dot_vv_nonneg (v : Vec3 ℝ) : 0 ≤ dot v v := by
  simp only [dot]
  nlinarith [mul_self_nonneg v.x, mul_self_nonneg v.y, mul_self_nonneg v.z]

theorem dot_vv_eq_zero_iff (v : Vec3 ℝ) : dot v v = 0 ↔ v = zero := by
  constructor
  · intro h
    simp only [dot] at h
    obtain ⟨a, b, c⟩ := v
    simp only [x_mk, y_mk, z_mk] at h
    have ha : a = 0 := by nlinarith [mul_self_nonneg a, mul_self_nonneg b, mul_self_nonneg c]
    have hb : b = 0 := by nlinarith [mul_self_nonneg a, mul_self_nonneg b, mul_self_nonneg c]
    have hc : c = 0 := by nlinarith [mul_self_nonneg a, mul_self_nonneg b, mul_self_nonneg c]
    simp [zero, ha, hb, hc]
  · intro h
    subst h
    simp [dot]

theorem length_sq (v : Vec3 ℝ) : length v ^ 2 = dot v v :=
  Real.sq_sqrt (dot_vv_nonneg v)

theorem dot_normalized_self (v : Vec3 ℝ) (h : dot v v ≠ 0) :
    dot (normalized v) (normalized v) = 1 := by
  have hpos : 0 < dot v v := lt_of_le_of_ne (dot_vv_nonneg v) (Ne.symm h)
  have hLpos : 0 < length v := Real.sqrt_pos.mpr hpos
  have hL2 : length v * length v = dot v v := by
    have := length_sq v
    rwa [sq] at this
  simp only [normalized, dot, x_hdiv, y_hdiv, z_hdiv]
  simp only [dot] at hL2
  field_simp
  linarith [hL2]

theorem normalized_zero : normalized (zero : Vec3 ℝ) = zero := by
  have h : dot (zero : Vec3 ℝ) (zero : Vec3 ℝ) = 0 := by simp [dot]
  simp only [normalized, length, h, Real.sqrt_zero]
  show (⟨0 / 0, 0 / 0, 0 / 0⟩ : Vec3 ℝ) = zero
  norm_num [zero]

theorem dot_normalized_right (u v : Vec3 ℝ) : dot u (normalized v) = dot u v / length v := by
  simp only [normalized, dot, x_hdiv, y_hdiv, z_hdiv]
  ring

theorem dot_neg_right (u v : Vec3 ℝ) : dot u (-v) = -dot u v := by
  simp only [dot, x_neg, y_neg, z_neg]
  ring

theorem dot_neg_neg (v : Vec3 ℝ) : dot (-v) (-v) = dot v v := by
  simp only [dot, x_neg, y_neg, z_neg]
  ring

theorem dot_self_cross (u v : Vec3 ℝ) : dot u (cross u v) = 0 := by
  simp only [dot, x_cross, y_cross, z_cross]
  ring

theorem dot_add_hmul (p q : Vec3 ℝ) (t : ℝ) :
    dot (p + q * t) (p + q * t) =
      dot p p + 2 * t * dot p q + t ^ 2 * dot q q := by
  simp only [dot, x_add, y_add, z_add, x_hmul, y_hmul, z_hmul]
  ring

theorem length_eq_one (v : Vec3 ℝ) (h : dot v v = 1) : length v = 1 := by
  rw [length, h, Real.sqrt_one]

end Vec3

/-- After `Camera::pan`, the direction is exactly unit (in the real-number
model): the right vector is a unit vector orthogonal to the direction, so
the nudged direction has squared length `1 + a²` and renormalises to 1. -/
theorem dot_direction_pan (c : Camera) (a : ℝ)
    (hunit : Vec3.dot c.direction c.direction = 1)
    (hpar : Vec3.cross c.direction world_up ≠ Vec3.zero) :
    Vec3.dot (c.pan a).direction (c.pan a).direction = 1 := by
  set d := c.direction
  set q := Vec3.cross d world_up
  have hq : Vec3.dot q q ≠ 0 := fun h => hpar ((Vec3.dot_vv_eq_zero_iff q).mp h)
  have hdr : Vec3.dot d (c.get_right_direction) = 0 := by
    show Vec3.dot d (-(Vec3.normalized q)) = 0
    rw [Vec3.dot_neg_right, Vec3.dot_normalized_right]
    rw [Vec3.dot_self_cross]
    simp
  have hrr : Vec3.dot (c.get_right_direction) (c.get_right_direction) = 1 := by
    show Vec3.dot (-(Vec3.normalized q)) (-(Vec3.normalized q)) = 1
    rw [Vec3.dot_neg_neg]
    exact Vec3.dot_normalized_self q hq
  have hsum : Vec3.dot (d + c.get_right_direction * a) (d + c.get_right_direction * a) =
      1 + a ^ 2 := by
    rw [Vec3.dot_add_hmul, hunit, hdr, hrr]
    ring
  have hne : Vec3.dot (d + c.get_right_direction * a) (d + c.get_right_direction * a) ≠ 0 := by
    rw [hsum]
    positivity
  show Vec3.dot (Vec3.normalized (d + c.get_right_direction * a))
      (Vec3.normalized (d + c.get_right_direction * a)) = 1
  exact Vec3.dot_normalized_self _ hne

/-- After `Camera::tilt`, the direction is exactly unit (real-number
model), for any direction that is unit before the call: the up vector is
orthogonal to the direction and has squared length 0 or 1, so the nudged
direction has squared length `1` or `1 + b²`, never zero. -/
theorem dot_direction_tilt (c : Camera) (b : ℝ)
    (hunit : Vec3.dot c.direction c.direction = 1) :
    Vec3.dot (c.tilt b).direction (c.tilt b).direction = 1 := by
  set d := c.direction
  set q := Vec3.cross d (c.get_right_direction)
  have hdu : Vec3.dot d (c.get_up_direction) = 0 := by
    show Vec3.dot d (Vec3.normalized q) = 0
    rw [Vec3.dot_normalized_right, Vec3.dot_self_cross]
    simp
  have huu : Vec3.dot (c.get_up_direction) (c.get_up_direction) = 0 ∨
      Vec3.dot (c.get_up_direction) (c.get_up_direction) = 1 := by
    by_cases hq : Vec3.dot q q = 0
    · left
      have hq0 : q = Vec3.zero := (Vec3.dot_vv_eq_zero_iff q).mp hq
      show Vec3.dot (Vec3.normalized q) (Vec3.normalized q) = 0
      rw [hq0, Vec3.normalized_zero]
      simp [Vec3.dot]
    · right
      exact Vec3.dot_normalized_self q hq
  have hsum : Vec3.dot (d + c.get_up_direction * b) (d + c.get_up_direction * b) =
      1 + b ^ 2 * Vec3.dot (c.get_up_direction) (c.get_up_direction) := by
    rw [Vec3.dot_add_hmul, hunit, hdu]
    ring
  have hne : Vec3.dot (d + c.get_up_direction * b) (d + c.get_up_direction * b) ≠ 0 := by
    rw [hsum]
    rcases huu with h | h <;> rw [h] <;> positivity
  show Vec3.dot (Vec3.normalized (d + c.get_up_direction * b))
      (Vec3.normalized (d + c.get_up_direction * b)) = 1
  exact Vec3.dot_normalized_self _ hne

theorem buildNodes_root_bbox (tris : List Triangle) (idxs : List ℕ) (base : ℕ) :
    ((buildNodes tris idxs base).getD 0 BVHNode.default).bbox_min = (nodeBBox tris idxs).1 ∧
    ((buildNodes tris idxs base).getD 0 BVHNode.default).bbox_max = (nodeBBox tris idxs).2 := by
  rw [buildNodes]
  split <;> exact ⟨rfl, rfl⟩

theorem getD_drop {α : Type} (l : List α) (n : ℕ) :
    ∀ (m : ℕ) (d : α), (l.drop n).getD m d = l.getD (n + m) d := by
  induction l generalizing n with
  | nil => intro m d; simp [List.getD]
  | cons a t ih =>
    intro m d
    cases n with
    | zero => simp
    | succ n2 =>
      rw [List.drop_succ_cons]
      rw [show n2 + 1 + m = (n2 + m) + 1 by omega, List.getD_cons_succ]
      exact ih n2 m d

/-! ## The claims -/

/-- C1: for finite triangles and a duplicate-free index subset,
`bvh_build` partitions the subset over the leaves: every input index
appears in the `triangle_ids[0..triangle_count]` of exactly one leaf node
reachable from the returned root, with no duplication and no omission.
(The index bound `< 2^32` makes the `usize as u32` id cast lossless, as it
is for every real triangle array.) -/
theorem bvh_build_partitions (tris : List Triangle) (idxs : List ℕ) (tree : List BVHNode)
    (m : ℕ) (hnd : idxs.Nodup) (hbound : ∀ i ∈ idxs, i < 2 ^ 32) :
    ∀ i ∈ idxs,
      (∃! j : ℕ,
        Reach (bvhBuild tris idxs tree m).1 (bvhBuild tris idxs tree m).2 j ∧
        0 < ((bvhBuild tris idxs tree m).1.getD j BVHNode.default).triangle_count ∧
        i ∈ nodeIds ((bvhBuild tris idxs tree m).1.getD j BVHNode.default)) ∧
      (∀ j : ℕ,
        Reach (bvhBuild tris idxs tree m).1 (bvhBuild tris idxs tree m).2 j →
        List.count i (nodeIds ((bvhBuild tris idxs tree m).1.getD j BVHNode.default)) ≤ 1) := by
  intro i hi
  rw [bvhBuild_eq']
  set new := buildNodes tris idxs tree.length with hnew
  set base := tree.length with hbase
  simp only []
  have hne : idxs ≠ [] := List.ne_nil_of_mem hi
  have hreach : ∀ j, Reach (tree ++ new) base j ↔ base ≤ j ∧ j < base + new.length := by
    intro j
    have := reach_buildNodes tris idxs base hne tree [] rfl j
    simpa using this
  have hmap : idxs.map (· % 2 ^ 32) = idxs := by
    have h := List.map_congr_left
      (fun a (ha : a ∈ idxs) => Nat.mod_eq_of_lt (hbound a ha))
    rw [h]
    simp
  have hcnt1 : List.count i (List.flatten (new.map nodeIds)) = 1 := by
    rw [hnew, countIds_buildNodes, hmap]
    exact List.count_eq_one_of_mem hnd hi
  set cl := new.map (fun nd => List.count i (nodeIds nd)) with hcl
  have hclsum : cl.sum = 1 := by
    rw [← hcnt1, List.count_flatten, List.map_map]
    rfl
  have hcllen : cl.length = new.length := by rw [hcl, List.length_map]
  have hclgetD : ∀ k, k < new.length →
      cl.getD k 0 = List.count i (nodeIds (new.getD k BVHNode.default)) := by
    intro k hk
    rw [hcl]
    rw [List.getD_eq_getElem (List.map (fun nd => List.count i (nodeIds nd)) new) 0
      (by rw [List.length_map]; exact hk)]
    rw [List.getElem_map]
    rw [List.getD_eq_getElem new BVHNode.default hk]
  have hTgetD : ∀ j, base ≤ j →
      (tree ++ new).getD j BVHNode.default = new.getD (j - base) BVHNode.default := by
    intro j hj
    exact List.getD_append_right _ _ _ _ hj
  have hmemcnt : ∀ (nd : BVHNode), i ∈ nodeIds nd → 0 < nd.triangle_count := by
    intro nd hmem
    rcases Nat.eq_zero_or_pos nd.triangle_count with h0 | h0
    · exfalso
      have : nodeIds nd = [] := by
        rw [nodeIds, h0]
        simp
      rw [this] at hmem
      exact absurd hmem (List.not_mem_nil i)
    · exact h0
  obtain ⟨k, ⟨hk, hkpos⟩, huniq⟩ := sum_eq_one_unique_pos cl hclsum
  rw [hcllen] at hk
  constructor
  · refine ⟨base + k, ⟨?_, ?_, ?_⟩, ?_⟩
    · rw [hreach]
      omega
    · rw [hTgetD _ (by omega), show base + k - base = k by omega]
      apply hmemcnt
      rw [← List.count_pos_iff]
      rw [hclgetD k hk] at hkpos
      exact hkpos
    · rw [hTgetD _ (by omega), show base + k - base = k by omega]
      rw [← List.count_pos_iff]
      rw [hclgetD k hk] at hkpos
      exact hkpos
    · rintro j ⟨hr, hpos, hmem⟩
      rw [hreach] at hr
      have hk2 : j - base < new.length := by omega
      have : 0 < cl.getD (j - base) 0 := by
        rw [hclgetD _ hk2, List.count_pos_iff]
        rw [hTgetD _ (by omega)] at hmem
        exact hmem
      have := huniq (j - base) ⟨by omega, this⟩
      omega
  · intro j hr
    rw [hreach] at hr
    rw [hTgetD _ (by omega)]
    have := getD_le_sum cl (j - base)
    rw [hclsum, hclgetD _ (by omega)] at this
    exact this

theorem bvh_build_partitions_witness :
    (([0] : List ℕ).Nodup ∧ ∀ i ∈ ([0] : List ℕ), i < 2 ^ 32) ∧
    ∀ i ∈ ([0] : List ℕ),
      (∃! j : ℕ,
        Reach (bvhBuild [exTriangle] [0] [] 8).1 (bvhBuild [exTriangle] [0] [] 8).2 j ∧
        0 < ((bvhBuild [exTriangle] [0] [] 8).1.getD j BVHNode.default).triangle_count ∧
        i ∈ nodeIds ((bvhBuild [exTriangle] [0] [] 8).1.getD j BVHNode.default)) ∧
      (∀ j : ℕ,
        Reach (bvhBuild [exTriangle] [0] [] 8).1 (bvhBuild [exTriangle] [0] [] 8).2 j →
        List.count i (nodeIds ((bvhBuild [exTriangle] [0] [] 8).1.getD j BVHNode.default)) ≤ 1) :=
  ⟨⟨by decide, by decide⟩,
    bvh_build_partitions [exTriangle] [0] [] 8 (by decide) (by decide)⟩

/-- C2: for a non-empty subset, `bvh_build` emits a leaf (default node
carrying the subset's indices verbatim, its length as the count, and the
node's inflated bounding box) exactly when the subset length is at most
`TRIANGLES_PER_LEAF = 7`; and every node of the emitted tree has
`triangle_count ≤ 7`. -/
theorem bvh_build_leaf_policy (tris : List Triangle) (idxs : List ℕ) (tree : List BVHNode)
    (m : ℕ) (hne : idxs ≠ []) :
    (idxs.length ≤ TRIANGLES_PER_LEAF ↔
      (bvhBuild tris idxs tree m).1 = tree ++ [mkLeafNode tris idxs]) ∧
    nodeIds (mkLeafNode tris idxs) = idxs.map (· % 2 ^ 32) ∧
    (mkLeafNode tris idxs).triangle_count = idxs.length ∧
    (mkLeafNode tris idxs).bbox_min = (nodeBBox tris idxs).1 ∧
    (mkLeafNode tris idxs).bbox_max = (nodeBBox tris idxs).2 ∧
    ∀ nd ∈ (bvhBuild tris idxs tree m).1.drop tree.length,
      nd.triangle_count ≤ TRIANGLES_PER_LEAF := by
  rw [bvhBuild_eq']
  simp only []
  refine ⟨⟨?_, ?_⟩, nodeIds_mkLeafNode tris idxs, rfl, rfl, rfl, ?_⟩
  · intro h
    rw [buildNodes, if_pos h]
  · intro h
    by_contra hgt
    have heq : buildNodes tris idxs tree.length = [mkLeafNode tris idxs] :=
      List.append_cancel_left h
    have hlen := congrArg List.length heq
    rw [buildNodes, if_neg hgt] at hlen
    simp only [List.length_cons, List.length_append, List.length_singleton,
      List.length_nil] at hlen
    have h1 := buildNodes_length_pos tris (leftHalf tris idxs) (tree.length + 1)
    omega
  · intro nd hnd
    rw [List.drop_left] at hnd
    exact triangle_count_buildNodes tris idxs tree.length nd hnd

theorem bvh_build_leaf_policy_witness :
    (([0] : List ℕ) ≠ []) ∧
    ((([0] : List ℕ).length ≤ TRIANGLES_PER_LEAF ↔
      (bvhBuild [exTriangle] [0] [] 8).1 = [] ++ [mkLeafNode [exTriangle] [0]]) ∧
    nodeIds (mkLeafNode [exTriangle] [0]) = ([0] : List ℕ).map (· % 2 ^ 32) ∧
    (mkLeafNode [exTriangle] [0]).triangle_count = ([0] : List ℕ).length ∧
    (mkLeafNode [exTriangle] [0]).bbox_min = (nodeBBox [exTriangle] [0]).1 ∧
    (mkLeafNode [exTriangle] [0]).bbox_max = (nodeBBox [exTriangle] [0]).2 ∧
    ∀ nd ∈ (bvhBuild [exTriangle] [0] [] 8).1.drop ([] : List BVHNode).length,
      nd.triangle_count ≤ TRIANGLES_PER_LEAF) :=
  ⟨by decide, bvh_build_leaf_policy [exTriangle] [0] [] 8 (by decide)⟩

/-- C3 (counterexample): at a concrete subset of 8 triangles whose union
box has equal greatest extent on the x- and y-axes, the claim's tie-break
(x preferred) fails: the code picks axis 1 (y), while the spec's chooser
picks axis 0 (x). -/
theorem split_axis_tie_counterexample :
    7 < ([0, 1, 2, 3, 4, 5, 6, 7] : List ℕ).length ∧
    (((nodeBBox exTris8 [0, 1, 2, 3, 4, 5, 6, 7]).2 -
        (nodeBBox exTris8 [0, 1, 2, 3, 4, 5, 6, 7]).1).get 0 =
      ((nodeBBox exTris8 [0, 1, 2, 3, 4, 5, 6, 7]).2 -
        (nodeBBox exTris8 [0, 1, 2, 3, 4, 5, 6, 7]).1).get 1) ∧
    splitAxis exTris8 [0, 1, 2, 3, 4, 5, 6, 7] = 1 ∧
    specSplitAxis ((nodeBBox exTris8 [0, 1, 2, 3, 4, 5, 6, 7]).2 -
      (nodeBBox exTris8 [0, 1, 2, 3, 4, 5, 6, 7]).1) = 0 := by
  have hbb : nodeBBox exTris8 [0, 1, 2, 3, 4, 5, 6, 7] =
      (⟨0, 0, -(1 / 100)⟩, ⟨7, 7, 1 / 100⟩) := by
    simp only [nodeBBox, subsetBBox, inflateBBox, inflateAxis, Triangle.bounding_box,
      exTris8, pointTri, List.foldl, List.getD, List.get?, List.range_succ, List.map,
      Vec3.vmin, Vec3.vmax, List.append_nil, List.nil_append]
    norm_num [min_def, max_def, abs]
  refine ⟨by norm_num, ?_, ?_, ?_⟩
  · rw [hbb]; norm_num [Vec3.get]
  · rw [splitAxis, hbb, longestAxis]; norm_num [Vec3.get]
  · rw [hbb, specSplitAxis]; norm_num [Vec3.get]

/-- C3 (amended): the split axis `bvh_build` sorts along is an axis of
greatest extent of the node's (inflated) bounding box, but ties are broken
toward the later axis (z over y over x), not the earlier one. -/
theorem split_axis_greatest_extent_latest_tie (tris : List Triangle) (idxs : List ℕ) :
    (∀ i, i < 3 →
      ((nodeBBox tris idxs).2 - (nodeBBox tris idxs).1).get i ≤
        ((nodeBBox tris idxs).2 - (nodeBBox tris idxs).1).get (splitAxis tris idxs)) ∧
    (∀ j, splitAxis tris idxs < j → j < 3 →
      ((nodeBBox tris idxs).2 - (nodeBBox tris idxs).1).get j <
        ((nodeBBox tris idxs).2 - (nodeBBox tris idxs).1).get (splitAxis tris idxs)) := by
  set d := (nodeBBox tris idxs).2 - (nodeBBox tris idxs).1 with hd
  have hsa : splitAxis tris idxs = longestAxis d := rfl
  rw [hsa, longestAxis]
  split_ifs with h1 h2
  · constructor
    · intro i hi
      interval_cases i
      · exact le_refl _
      · exact le_of_lt h1.1
      · exact le_of_lt h1.2
    · intro j hj1 hj2
      interval_cases j
      · exact h1.1
      · exact h1.2
  · have h0 : d.get 0 ≤ d.get 1 := by
      rcases not_and_or.mp h1 with h | h
      · exact le_of_not_lt h
      · exact le_trans (le_of_not_lt h) (le_of_lt h2)
    constructor
    · intro i hi
      interval_cases i
      · exact h0
      · exact le_refl _
      · exact le_of_lt h2
    · intro j hj1 hj2
      interval_cases j
      · exact h2
  · have h2' : d.get 1 ≤ d.get 2 := le_of_not_lt h2
    have h0 : d.get 0 ≤ d.get 2 := by
      rcases not_and_or.mp h1 with h | h
      · exact le_trans (le_of_not_lt h) h2'
      · exact le_of_not_lt h
    constructor
    · intro i hi
      interval_cases i
      · exact h0
      · exact h2'
      · exact le_refl _
    · intro j hj1 hj2
      omega

theorem split_axis_greatest_extent_latest_tie_witness :
    0 < 3 ∧
    ((nodeBBox exTris8 [0, 1, 2, 3, 4, 5, 6, 7]).2 -
        (nodeBBox exTris8 [0, 1, 2, 3, 4, 5, 6, 7]).1).get 0 ≤
      ((nodeBBox exTris8 [0, 1, 2, 3, 4, 5, 6, 7]).2 -
        (nodeBBox exTris8 [0, 1, 2, 3, 4, 5, 6, 7]).1).get
          (splitAxis exTris8 [0, 1, 2, 3, 4, 5, 6, 7]) :=
  ⟨by norm_num,
    (split_axis_greatest_extent_latest_tie exTris8 [0, 1, 2, 3, 4, 5, 6, 7]).1 0 (by norm_num)⟩

/-- C4: `scene_build` runs the BVH builder over `[0, triangle_count)` —
whose output equals a run with `max_leaf_size = 7`, the builder ignoring
the argument — and copies the first at-most-96 produced nodes into the
scene's 96-slot `bvh` array in order from slot 0; nodes beyond 96 are
dropped with no error and the array keeps its length. -/
theorem scene_build_truncates_at_96 (s : Scene) (h96 : s.bvh.length = 96) :
    (sceneBuild s).bvh =
      ((bvhBuild s.triangles (List.range s.triangle_count) [] 7).1.take 96) ++
        s.bvh.drop ((bvhBuild s.triangles (List.range s.triangle_count) [] 7).1.take 96).length ∧
    (sceneBuild s).bvh.length = 96 ∧
    (sceneBuild s).triangles = s.triangles ∧
    (sceneBuild s).triangle_count = s.triangle_count := by
  have hsame : (bvhBuild s.triangles (List.range s.triangle_count) [] 8).1 =
      (bvhBuild s.triangles (List.range s.triangle_count) [] 7).1 := by
    rw [bvhBuild_eq', bvhBuild_eq']
  set K := (bvhBuild s.triangles (List.range s.triangle_count) [] 7).1.take 96 with hK
  have hKlen : K.length ≤ 96 := by
    rw [hK, List.length_take]
    omega
  have hW : (sceneBuild s).bvh = K ++ s.bvh.drop K.length := by
    show writeNodes s.bvh ((bvhBuild s.triangles (List.range s.triangle_count) [] 8).1.take 96) = _
    rw [hsame]
    exact writeNodes_eq s.bvh K (by omega)
  refine ⟨hW, ?_, rfl, rfl⟩
  rw [hW, List.length_append, List.length_drop]
  omega

theorem scene_build_truncates_at_96_witness :
    Scene.new.bvh.length = 96 ∧
    ((sceneBuild Scene.new).bvh =
      ((bvhBuild Scene.new.triangles (List.range Scene.new.triangle_count) [] 7).1.take 96) ++
        Scene.new.bvh.drop
          ((bvhBuild Scene.new.triangles (List.range Scene.new.triangle_count) [] 7).1.take
            96).length ∧
    (sceneBuild Scene.new).bvh.length = 96 ∧
    (sceneBuild Scene.new).triangles = Scene.new.triangles ∧
    (sceneBuild Scene.new).triangle_count = Scene.new.triangle_count) :=
  ⟨by rw [show Scene.new.bvh = List.replicate 96 BVHNode.default from rfl,
      List.length_replicate],
    scene_build_truncates_at_96 Scene.new
      (by rw [show Scene.new.bvh = List.replicate 96 BVHNode.default from rfl,
        List.length_replicate])⟩

/-- C5: the node `bvh_build` writes at the returned root index carries the
componentwise min/max union of its subset's triangle boxes, inflated by
`±0.01` on every axis of extent below `1e-4`; and the concrete
single-triangle scene `{(0,0,0),(1,0,0),(0,1,0)}` builds to exactly one
leaf with box `(0,0,-0.01)..(1,1,0.01)`, `triangle_count = 1` and
`triangle_ids[0] = 0`. -/
theorem bvh_build_node_bbox (tris : List Triangle) (idxs : List ℕ) (tree : List BVHNode)
    (m : ℕ) (hne : idxs ≠ []) :
    (((bvhBuild tris idxs tree m).1.getD (bvhBuild tris idxs tree m).2
        BVHNode.default).bbox_min = (nodeBBox tris idxs).1 ∧
      ((bvhBuild tris idxs tree m).1.getD (bvhBuild tris idxs tree m).2
        BVHNode.default).bbox_max = (nodeBBox tris idxs).2) ∧
    bvhBuild [exTriangle] [0] [] 8 =
      ([⟨⟨0, 0, -(1 / 100)⟩, 0, ⟨1, 1, 1 / 100⟩, 0, 1, [0, 0, 0, 0, 0, 0, 0]⟩], 0) := by
  constructor
  · rw [bvhBuild_eq']
    simp only []
    rw [List.getD_append_right tree _ _ tree.length le_rfl, Nat.sub_self]
    exact buildNodes_root_bbox tris idxs tree.length
  · rw [bvhBuild_eq', buildNodes]
    rw [if_pos (by norm_num [TRIANGLES_PER_LEAF] : ([0] : List ℕ).length ≤ TRIANGLES_PER_LEAF)]
    simp only [mkLeafNode, nodeBBox, subsetBBox, inflateBBox, inflateAxis,
      Triangle.bounding_box, exTriangle, BVHNode.default, TRIANGLES_PER_LEAF, List.foldl,
      List.getD, List.get?, List.map, List.replicate, List.length]
    norm_num [min_def, max_def, abs, Vec3.zero]

theorem bvh_build_node_bbox_witness :
    (([0] : List ℕ) ≠ []) ∧
    ((((bvhBuild [exTriangle] [0] [] 8).1.getD (bvhBuild [exTriangle] [0] [] 8).2
        BVHNode.default).bbox_min = (nodeBBox [exTriangle] [0]).1 ∧
      ((bvhBuild [exTriangle] [0] [] 8).1.getD (bvhBuild [exTriangle] [0] [] 8).2
        BVHNode.default).bbox_max = (nodeBBox [exTriangle] [0]).2) ∧
    bvhBuild [exTriangle] [0] [] 8 =
      ([⟨⟨0, 0, -(1 / 100)⟩, 0, ⟨1, 1, 1 / 100⟩, 0, 1, [0, 0, 0, 0, 0, 0, 0]⟩], 0)) :=
  ⟨by decide, bvh_build_node_bbox [exTriangle] [0] [] 8 (by decide)⟩

/-- C6 (counterexample): `scene_build` does not fully regenerate the
96-slot `bvh` array: from a scene whose single produced node fills slot 0,
a left-over node in slot 1 survives the call — it is neither a node
produced by that call nor the reset (default) node. -/
theorem scene_build_stale_slot_survives :
    (sceneBuild exSceneStale).bvh.getD 1 BVHNode.default = staleNode ∧
    (∀ nd ∈ (bvhBuild exSceneStale.triangles (List.range exSceneStale.triangle_count) [] 8).1,
      nd ≠ staleNode) ∧
    staleNode ≠ BVHNode.default := by
  have hr1 : List.range exSceneStale.triangle_count = [0] := rfl
  have hb : bvhBuild exSceneStale.triangles (List.range exSceneStale.triangle_count) [] 8 =
      ([mkLeafNode exSceneStale.triangles [0]], 0) := by
    rw [hr1, bvhBuild_eq', buildNodes]
    rw [if_pos (by norm_num [TRIANGLES_PER_LEAF] : ([0] : List ℕ).length ≤ TRIANGLES_PER_LEAF)]
    rfl
  have hlen96 : exSceneStale.bvh.length = 96 := by
    show ((List.replicate 96 BVHNode.default).set 1 staleNode).length = 96
    rw [List.length_set, List.length_replicate]
  have hexp : exSceneStale.bvh =
      BVHNode.default :: staleNode :: List.replicate 94 BVHNode.default := by
    show (List.replicate 96 BVHNode.default).set 1 staleNode = _
    rw [List.replicate_succ, List.set_cons_succ, List.replicate_succ, List.set_cons_zero]
  have hbvh : (sceneBuild exSceneStale).bvh =
      [mkLeafNode exSceneStale.triangles [0]] ++ exSceneStale.bvh.drop 1 := by
    show writeNodes exSceneStale.bvh
        ((bvhBuild exSceneStale.triangles (List.range exSceneStale.triangle_count) [] 8).1.take 96)
      = _
    rw [hb]
    rw [show ([mkLeafNode exSceneStale.triangles [0]], 0).1.take 96 =
        [mkLeafNode exSceneStale.triangles [0]] from rfl]
    rw [writeNodes_eq _ _ (by rw [hlen96]; norm_num)]
    rfl
  refine ⟨?_, ?_, ?_⟩
  · rw [hbvh, hexp]
    rfl
  · intro nd hnd
    rw [hb] at hnd
    simp only [List.mem_singleton] at hnd
    subst hnd
    intro heq
    have h5 := congrArg BVHNode.triangle_count heq
    have h1 : (mkLeafNode exSceneStale.triangles [0]).triangle_count = 1 := rfl
    have h2 : staleNode.triangle_count = 5 := rfl
    rw [h1, h2] at h5
    exact absurd h5 (by norm_num)
  · intro heq
    have h5 := congrArg BVHNode.triangle_count heq
    have h2 : staleNode.triangle_count = 5 := rfl
    have h0 : BVHNode.default.triangle_count = 0 := rfl
    rw [h2, h0] at h5
    exact absurd h5 (by norm_num)

/-- C6 (amended): `scene_build` is idempotent — a second call from the
resulting state changes nothing — and each call overwrites exactly the
first `min(produced, 96)` `bvh` slots; slots beyond the produced node
count keep their previous content (they are not discarded or reset). -/
theorem scene_build_idempotent_overwrites_only (s : Scene) (h96 : s.bvh.length = 96) :
    sceneBuild (sceneBuild s) = sceneBuild s ∧
    ∀ j, ((bvhBuild s.triangles (List.range s.triangle_count) [] 8).1.take 96).length ≤ j →
      (sceneBuild s).bvh.getD j BVHNode.default = s.bvh.getD j BVHNode.default := by
  set K := (bvhBuild s.triangles (List.range s.triangle_count) [] 8).1.take 96 with hK
  have hKlen : K.length ≤ 96 := by
    rw [hK, List.length_take]
    omega
  have hlen : K.length ≤ s.bvh.length := by omega
  have hW : (sceneBuild s).bvh = K ++ s.bvh.drop K.length := writeNodes_eq s.bvh K hlen
  constructor
  · show ({ s with bvh := writeNodes (writeNodes s.bvh K) K } : Scene) =
      { s with bvh := writeNodes s.bvh K }
    have hWW : writeNodes (writeNodes s.bvh K) K = writeNodes s.bvh K := by
      rw [writeNodes_eq s.bvh K hlen]
      rw [writeNodes_eq _ _ (by simp)]
      rw [List.drop_left]
    rw [hWW]
  · intro j hj
    rw [hW]
    rw [List.getD_append_right _ _ _ _ hj]
    rw [getD_drop]
    congr 1
    omega

theorem scene_build_idempotent_overwrites_only_witness :
    exSceneStale.bvh.length = 96 ∧
    (sceneBuild (sceneBuild exSceneStale) = sceneBuild exSceneStale ∧
    ∀ j, ((bvhBuild exSceneStale.triangles (List.range exSceneStale.triangle_count) []
        8).1.take 96).length ≤ j →
      (sceneBuild exSceneStale).bvh.getD j BVHNode.default =
        exSceneStale.bvh.getD j BVHNode.default) :=
  ⟨by rw [show exSceneStale.bvh = (List.replicate 96 BVHNode.default).set 1 staleNode from rfl,
      List.length_set, List.length_replicate],
    scene_build_idempotent_overwrites_only exSceneStale
      (by rw [show exSceneStale.bvh = (List.replicate 96 BVHNode.default).set 1 staleNode from
        rfl, List.length_set, List.length_replicate])⟩

/-- C7: evaluating the loader at a face line whose vertex index is out of
range of the (empty) vertex list: the code panics (modelled as `none`) for
every float parser, where the spec requires the line to be silently
skipped and an empty list returned. -/
theorem load_mesh_face_line_panics (parseF32 : Str → Option ℚ) :
    load_mesh_from parseF32 (some [("f 1 2 3").toList]) 0 = none := by
  rfl

/-- C8: for a camera whose direction is a unit vector not parallel to the
world-up axis `(0,1,0)`, `pan` by any amount followed by `tilt` by any
amount leaves the direction at unit length within tolerance `1e-5` (in the
real-number model it is exactly unit). -/
theorem camera_pan_tilt_unit_length (c : Camera) (a b : ℝ)
    (hunit : Vec3.dot c.direction c.direction = 1)
    (hpar : Vec3.cross c.direction world_up ≠ Vec3.zero) :
    |Vec3.length (((c.pan a).tilt b).direction) - 1| ≤ 1 / 100000 := by
  have h1 := dot_direction_pan c a hunit hpar
  have h2 := dot_direction_tilt (c.pan a) b h1
  rw [Vec3.length_eq_one _ h2]
  norm_num

theorem camera_pan_tilt_unit_length_witness :
    (Vec3.dot exCamera.direction exCamera.direction = 1 ∧
      Vec3.cross exCamera.direction world_up ≠ Vec3.zero) ∧
    |Vec3.length (((exCamera.pan 1).tilt 1).direction) - 1| ≤ 1 / 100000 := by
  have hu : Vec3.dot exCamera.direction exCamera.direction = 1 := by
    norm_num [exCamera, Vec3.dot]
  have hp : Vec3.cross exCamera.direction world_up ≠ Vec3.zero := by
    intro h
    have hx := congrArg Vec3.x h
    norm_num [exCamera, Vec3.cross, world_up, Vec3.zero] at hx
  exact ⟨⟨hu, hp⟩, camera_pan_tilt_unit_length exCamera 1 1 hu hp⟩

/-- C9: `bvh_build`'s output — appended nodes and returned root index —
does not depend on the `max_triangles_per_leaf` argument at all; the leaf
guard is the fixed constant `TRIANGLES_PER_LEAF = 7`. -/
theorem bvh_build_ignores_max_leaf_param (tris : List Triangle) (idxs : List ℕ)
    (tree : List BVHNode) (m₁ m₂ : ℕ) :
    bvhBuild tris idxs tree m₁ = bvhBuild tris idxs tree m₂ := by
  rw [bvhBuild_eq', bvhBuild_eq']

/-- C10: when a subset longer than 7 is split, both halves of the sorted
subset are non-empty and strictly shorter than the subset (lengths
`len/2` and `len - len/2`), so the recursion of `bvh_build` is
well-founded on subset length (the Lean embedding is compiled exactly by
that measure). -/
theorem bvh_build_split_decreases (tris : List Triangle) (idxs : List ℕ)
    (h : TRIANGLES_PER_LEAF < idxs.length) :
    (leftHalf tris idxs).length = idxs.length / 2 ∧
    (rightHalf tris idxs).length = idxs.length - idxs.length / 2 ∧
    0 < (leftHalf tris idxs).length ∧ (leftHalf tris idxs).length < idxs.length ∧
    0 < (rightHalf tris idxs).length ∧ (rightHalf tris idxs).length < idxs.length := by
  have h7 : TRIANGLES_PER_LEAF = 7 := rfl
  rw [length_leftHalf, length_rightHalf]
  omega

theorem bvh_build_split_decreases_witness :
    TRIANGLES_PER_LEAF < ([0, 1, 2, 3, 4, 5, 6, 7] : List ℕ).length ∧
    ((leftHalf exTris8 [0, 1, 2, 3, 4, 5, 6, 7]).length =
        ([0, 1, 2, 3, 4, 5, 6, 7] : List ℕ).length / 2 ∧
      (rightHalf exTris8 [0, 1, 2, 3, 4, 5, 6, 7]).length =
        ([0, 1, 2, 3, 4, 5, 6, 7] : List ℕ).length -
          ([0, 1, 2, 3, 4, 5, 6, 7] : List ℕ).length / 2 ∧
      0 < (leftHalf exTris8 [0, 1, 2, 3, 4, 5, 6, 7]).length ∧
      (leftHalf exTris8 [0, 1, 2, 3, 4, 5, 6, 7]).length <
        ([0, 1, 2, 3, 4, 5, 6, 7] : List ℕ).length ∧
      0 < (rightHalf exTris8 [0, 1, 2, 3, 4, 5, 6, 7]).length ∧
      (rightHalf exTris8 [0, 1, 2, 3, 4, 5, 6, 7]).length <
        ([0, 1, 2, 3, 4, 5, 6, 7] : List ℕ).length) :=
  ⟨by decide, bvh_build_split_decreases exTris8 [0, 1, 2, 3, 4, 5, 6, 7] (by decide)⟩

end Shrimpy
